import Mathlib

set_option maxRecDepth 100000
set_option maxHeartbeats 1000000

/-
Verification development for the obsidian-hugo-github-publisher plugin.

The definitions below are a shallow embedding of the program's core:
  * `src/tracker.ts`   — NoteTracker (tracking index + reconciliation engine)
  * `github.ts`        — GithubIntegration (publish transaction manager)
  * `main.ts`          — publish orchestration (publishNotes / publishAllNotes)
  * `converter.ts`     — convertToSafeHugoFilename / slugify

External effects are made explicit:
  * the vault is a list of (path, content) pairs,
  * the persisted settings blob is carried in the tracker state,
  * the GitHub remote is a state record plus a fault-injection oracle,
  * wall-clock inputs (Date.now(), toISOString()) are explicit parameters.
JS `Map` and plain string-keyed objects are modelled as association lists
with insertion-order semantics and unique keys (set replaces in place,
delete removes, get finds).
-/

/-! ### Association lists (JS Map / Record semantics) -/

def alistGet {κ α : Type} [DecidableEq κ] : List (κ × α) → κ → Option α
  | [], _ => none
  | p :: rest, k => if p.1 = k then some p.2 else alistGet rest k

def alistSet {κ α : Type} [DecidableEq κ] : List (κ × α) → κ → α → List (κ × α)
  | [], k, v => [(k, v)]
  | p :: rest, k, v => if p.1 = k then (k, v) :: rest else p :: alistSet rest k v

def alistDel {κ α : Type} [DecidableEq κ] : List (κ × α) → κ → List (κ × α)
  | [], _ => []
  | p :: rest, k => if p.1 = k then alistDel rest k else p :: alistDel rest k

/-! ### Character-level string utilities (JS regex/string primitives) -/

/-- Does the second list start with the first (the pattern)? -/
def charsLeadWith : List Char → List Char → Bool
  | [], _ => true
  | _ :: _, [] => false
  | p :: ps, c :: cs => p == c && charsLeadWith ps cs

/-- First occurrence of `pat` in a character list: returns the part before
the occurrence and the part after it (JS `indexOf` / lazy regex search). -/
def breakOnFirst (pat : List Char) : List Char → Option (List Char × List Char)
  | [] => if charsLeadWith pat [] then some ([], []) else none
  | c :: rest =>
    if charsLeadWith pat (c :: rest) then some ([], (c :: rest).drop pat.length)
    else (breakOnFirst pat rest).map (fun pr => (c :: pr.1, pr.2))

def hasSubstr (s pat : String) : Bool := (breakOnFirst pat.data s.data).isSome

/-- JS `String.prototype.replace(pat, rep)` with a plain-string pattern:
replaces the first occurrence only. -/
def replaceFirst (s pat rep : String) : String :=
  match breakOnFirst pat.data s.data with
  | some (a, b) => String.mk (a ++ rep.data ++ b)
  | none => s

/-- JS `\s` over the ASCII range all concrete inputs live in. -/
def isJsSpace (c : Char) : Bool :=
  c = ' ' || c = '\t' || c = '\n' || c = '\x0d' || c = '\x0c' || c = '\x0b'

/-- JS `String.prototype.trim` (ASCII whitespace). -/
def jsTrim (s : String) : String :=
  String.mk ((s.data.dropWhile isJsSpace).reverse.dropWhile isJsSpace).reverse

/-- JS `String.prototype.toLowerCase` on the ASCII inputs in scope. -/
def asciiLowerChar (c : Char) : Char :=
  if 'A' ≤ c && c ≤ 'Z' then Char.ofNat (c.toNat + 32) else c

def asciiLower (s : String) : String := String.mk (s.data.map asciiLowerChar)

/-- JS `String.prototype.split` with a single-character separator. -/
def splitOnChar (sep : Char) : List Char → List (List Char)
  | [] => [[]]
  | c :: rest =>
    match splitOnChar sep rest with
    | [] => [[c]]
    | h :: t => if c = sep then [] :: h :: t else (c :: h) :: t

def jsSplit (sep : Char) (s : String) : List String := (splitOnChar sep s.data).map String.mk

/-- JS `String.prototype.endsWith`. -/
def jsEndsWith (s suffix : String) : Bool :=
  charsLeadWith suffix.data.reverse s.data.reverse

/-! ### Content hash (tracker.ts `generateContentHash`)

JS: `hash = (hash << 5) - hash + charCodeAt(i); hash = hash & hash` —
32-bit wrapping at the shift and at the `& hash` truncation, then
rendered with `Number.prototype.toString(16)` (lowercase hex, leading
`-` for negative values).  Characters in all concrete inputs below are
ASCII, where `charCodeAt` agrees with the Unicode scalar value. -/

def toInt32 (n : Int) : Int := ((n + 2 ^ 31) % 2 ^ 32) - 2 ^ 31

def hashStep (h : Int) (c : Nat) : Int := toInt32 (toInt32 (h * 32) - h + c)

def jsHashInt (s : String) : Int := s.data.foldl (fun h c => hashStep h c.toNat) 0

def natToHex (n : Nat) : String := String.mk (Nat.toDigits 16 n)

def intToHexJS (n : Int) : String :=
  if n < 0 then "-" ++ natToHex n.natAbs else natToHex n.toNat

/-- tracker.ts `generateContentHash` (the file read is made explicit:
the argument is the file's content; the read-error fallback branch is
unreachable in this effect-free model). -/
def generateContentHash (content : String) : String := intToHexJS (jsHashInt content)

/-! ### Frontmatter extraction (tracker.ts `extractFrontmatter`) -/

inductive FMVal where
  | b (v : Bool)
  | s (v : String)
deriving DecidableEq, Repr

/-- One line of the frontmatter block:
`const [key, value] = line.split(':').map(s => s.trim())`,
assign when `key` is truthy and `value` is defined, coercing the
case-insensitive literals `true` / `false` to booleans. -/
def parseFMLine (acc : List (String × FMVal)) (line : String) : List (String × FMVal) :=
  let parts := (jsSplit ':' line).map jsTrim
  let key := (parts.get? 0).getD ""
  match parts.get? 1 with
  | none => acc
  | some value =>
    if key = "" then acc
    else if asciiLower value = "true" then alistSet acc key (FMVal.b true)
    else if asciiLower value = "false" then alistSet acc key (FMVal.b false)
    else alistSet acc key (FMVal.s value)

/-- tracker.ts `extractFrontmatter`: match the anchored lazy regex
"^---\n([\s\S]*?)\n---" and parse the captured block line by line. -/
def extractFrontmatter (content : String) : Option (List (String × FMVal)) :=
  let cs := content.data
  if charsLeadWith "---\n".data cs then
    match breakOnFirst "\n---".data (cs.drop 4) with
    | some (t, _) => some (((splitOnChar '\n' t).map String.mk).foldl parseFMLine [])
    | none => none
  else none

/-- `frontmatter && frontmatter.publish === true` for an extracted block. -/
def publishTrue (fm : List (String × FMVal)) : Bool :=
  decide (alistGet fm "publish" = some (FMVal.b true))

/-- A document is trackable iff its current content extracts a
frontmatter block whose `publish` key is the boolean `true`. -/
def isPublishable (content : String) : Bool :=
  match extractFrontmatter content with
  | some fm => publishTrue fm
  | none => false

/-! ### Tracker data model (types.ts) -/

inductive PubStatus where
  | success
  | failure
deriving DecidableEq, Repr

/-- types.ts `PublicationEvent`. -/
structure PublicationEvent where
  timestamp : Nat
  branch : String
  commitHash : Option String
  status : PubStatus
  error : Option String
deriving DecidableEq, Repr

/-- types.ts `PublishableNote`.  The `file : TFile` field is represented by
its identity, the vault path; `contentHash` is non-optional because every
construction site in tracker.ts sets it. -/
structure PublishableNote where
  path : String
  frontmatter : List (String × FMVal)
  lastPublished : Option Nat
  modified : Bool
  contentHash : String
  publicationHistory : Option (List PublicationEvent)
deriving DecidableEq, Repr

/-- types.ts `NoteTrackingData.notes` entry (the persisted snapshot record). -/
structure PersistedNoteData where
  path : String
  lastPublished : Option Nat
  contentHash : Option String
  frontmatterHash : Option String
  publicationHistory : Option (List PublicationEvent)
deriving DecidableEq, Repr

/-- The NoteTracker's mutable state together with the slice of plugin
settings it owns (`settings.trackingData`, the persisted snapshot). -/
structure TrackerState where
  trackedNotes : List (String × PublishableNote)
  isRefreshing : Bool
  trackingData : Option (List (String × PersistedNoteData))
deriving DecidableEq, Repr

/-- The document store: path to full content.  `getMarkdownFiles` returns
these pairs in listing order. -/
abbrev Vault := List (String × String)

/-! ### Tracker operations (tracker.ts) -/

/-- tracker.ts `generateFrontmatterHash`: `JSON.stringify(frontmatter)`
followed by the same rolling hash.  String escaping covers the JSON
characters that can occur in the parsed values in scope (quote,
backslash, newline). -/
def jsonEscapeChar (c : Char) : List Char :=
  if c = '"' then ['\\', '"']
  else if c = '\\' then ['\\', '\\']
  else if c = '\n' then ['\\', 'n']
  else [c]

def jsonOfFMVal : FMVal → String
  | FMVal.b true => "true"
  | FMVal.b false => "false"
  | FMVal.s v => String.mk ('"' :: (v.data.foldr (fun c acc => jsonEscapeChar c ++ acc) ['"']))

def jsonOfFrontmatter (fm : List (String × FMVal)) : String :=
  "\x7b" ++ String.intercalate ","
    (fm.map (fun kv => "\"" ++ kv.1 ++ "\":" ++ jsonOfFMVal kv.2)) ++ "\x7d"

def generateFrontmatterHash (fm : List (String × FMVal)) : String :=
  intToHexJS (jsHashInt (jsonOfFrontmatter fm))

/-- tracker.ts `updatePersistedTrackingData`: rebuild `trackingData`
wholesale from the live map (the snapshot is replaced, not merged). -/
def updatePersistedTrackingData (s : TrackerState) : TrackerState :=
  { s with trackingData := some (s.trackedNotes.map (fun pn =>
      (pn.1, { path := pn.1
             , lastPublished := pn.2.lastPublished
             , contentHash := some pn.2.contentHash
             , frontmatterHash := some (generateFrontmatterHash pn.2.frontmatter)
             , publicationHistory := some (pn.2.publicationHistory.getD []) }))) }

/-- The body of the tracker.ts `refreshTrackedNotes` scan for one markdown
file: keep it iff `publish: true`, carrying over `lastPublished` and
`publicationHistory` from the previous in-memory record and recomputing
`modified` as `!existingNote || existingNote.contentHash !== contentHash`. -/
def refreshFoldStep (s : TrackerState) (acc : List (String × PublishableNote))
    (file : String × String) : List (String × PublishableNote) :=
  match extractFrontmatter file.2 with
  | some fm =>
    if publishTrue fm then
      let contentHash := generateContentHash file.2
      let existingNote := alistGet s.trackedNotes file.1
      let note : PublishableNote :=
        { path := file.1
        , frontmatter := fm
        , contentHash := contentHash
        , modified :=
            match existingNote with
            | none => true
            | some old => decide (old.contentHash ≠ contentHash)
        , lastPublished := existingNote.bind (fun n => n.lastPublished)
        , publicationHistory :=
            some ((existingNote.bind (fun n => n.publicationHistory)).getD []) }
      alistSet acc file.1 note
    else acc
  | none => acc

/-- tracker.ts `refreshTrackedNotes`: guarded by the `isRefreshing` busy
flag (a refresh already in progress makes the call return immediately);
otherwise the tracked map is rebuilt from scratch by folding
`refreshFoldStep` over every markdown file, and the persisted snapshot
is rewritten wholesale.  The flag is set for the duration of the scan
and cleared in `finally`, so the returned state carries the caller's
(false) flag. -/
def refreshTrackedNotes (vault : Vault) (s : TrackerState) : TrackerState :=
  if s.isRefreshing then s
  else
    let newTrackedNotes :=
      vault.foldl (refreshFoldStep s) ([] : List (String × PublishableNote))
    updatePersistedTrackingData { s with trackedNotes := newTrackedNotes }

/-- The body of the tracker.ts `initializeFromPersistedData` walk for one markdown
file, threading (live map, snapshot): a file with a snapshot entry is
restored when it still carries `publish: true` (with `modified`
recomputed as snapshot-hash ≠ fresh-hash), and its snapshot entry is
deleted when it no longer does. -/
def initFoldStep (acc : List (String × PublishableNote) × List (String × PersistedNoteData))
    (file : String × String) :
    List (String × PublishableNote) × List (String × PersistedNoteData) :=
  match alistGet acc.2 file.1 with
  | none => acc
  | some persistedData =>
    let contentHash := generateContentHash file.2
    match extractFrontmatter file.2 with
    | some fm =>
      if publishTrue fm then
        (alistSet acc.1 file.1
          { path := file.1
          , frontmatter := fm
          , lastPublished := persistedData.lastPublished
          , modified := decide (persistedData.contentHash ≠ some contentHash)
          , contentHash := contentHash
          , publicationHistory := some (persistedData.publicationHistory.getD []) }
        , acc.2)
      else (acc.1, alistDel acc.2 file.1)
    | none => (acc.1, alistDel acc.2 file.1)

/-- tracker.ts `initializeFromPersistedData`: if no snapshot exists, create
an empty one; otherwise fold `initFoldStep` over the vault. -/
def initializeFromPersistedData (vault : Vault) (s : TrackerState) : TrackerState :=
  match s.trackingData with
  | none => { s with trackingData := some [] }
  | some td =>
    let r := vault.foldl initFoldStep (s.trackedNotes, td)
    { s with trackedNotes := r.1, trackingData := some r.2 }

/-- tracker.ts `removeFromPersistedData`. -/
def removeFromPersistedData (path : String) (s : TrackerState) : TrackerState :=
  match s.trackingData with
  | some td =>
    if (alistGet td path).isSome then { s with trackingData := some (alistDel td path) }
    else s
  | none => s

/-- tracker.ts `removeTrackedNote`. -/
def removeTrackedNote (path : String) (s : TrackerState) : TrackerState :=
  if (alistGet s.trackedNotes path).isSome then
    removeFromPersistedData path { s with trackedNotes := alistDel s.trackedNotes path }
  else s

/-- tracker.ts `addFileToTracking` (the Bool result is dropped). -/
def addFileToTracking (path content : String) (s : TrackerState) : TrackerState :=
  match extractFrontmatter content with
  | some fm =>
    if publishTrue fm then
      let contentHash := generateContentHash content
      let trackingData := s.trackingData.bind (fun td => alistGet td path)
      let wasModified :=
        match trackingData with
        | none => true
        | some p => decide (p.contentHash ≠ some contentHash)
      { s with trackedNotes := alistSet s.trackedNotes path (
          { path := path
          , frontmatter := fm
          , lastPublished := trackingData.bind (fun p => p.lastPublished)
          , modified := wasModified
          , contentHash := contentHash
          , publicationHistory := none }) }
    else s
  | none => s

/-- tracker.ts `checkFileModification`. -/
def checkFileModification (path content : String) (s : TrackerState) : TrackerState :=
  match extractFrontmatter content with
  | some fm =>
    if publishTrue fm then
      let contentHash := generateContentHash content
      match alistGet s.trackedNotes path with
      | some existingNote =>
        { s with trackedNotes := alistSet s.trackedNotes path (
            { existingNote with
                modified := decide (existingNote.contentHash ≠ contentHash)
              , contentHash := contentHash }) }
      | none => addFileToTracking path content s
    else if (alistGet s.trackedNotes path).isSome then removeTrackedNote path s else s
  | none =>
    if (alistGet s.trackedNotes path).isSome then removeTrackedNote path s else s

/-- tracker.ts `handleFileRename`: delete the old identity, and when the
renamed file still carries `publish: true` re-insert it under the new
path, carrying `lastPublished` forward, forcing `modified := true`, and
(notably) without a `publicationHistory` field. -/
def handleFileRename (oldPath newPath newContent : String) (s : TrackerState) : TrackerState :=
  match alistGet s.trackedNotes oldPath with
  | some oldData =>
    let s₁ := { s with trackedNotes := alistDel s.trackedNotes oldPath }
    match extractFrontmatter newContent with
    | some fm =>
      if publishTrue fm then
        let contentHash := generateContentHash newContent
        updatePersistedTrackingData
          { s₁ with trackedNotes := alistSet s₁.trackedNotes newPath (
              { path := newPath
              , frontmatter := fm
              , lastPublished := oldData.lastPublished
              , modified := true
              , contentHash := contentHash
              , publicationHistory := none }) }
      else removeFromPersistedData oldPath s₁
    | none => removeFromPersistedData oldPath s₁
  | none => checkFileModification newPath newContent s

/-- tracker.ts `markNoteAsPublished`: absent path is a warned no-op;
otherwise clear `modified`, set `lastPublished`, append the event and
keep only the last 10 entries (`slice(-10)`). -/
def markNoteAsPublished (path : String) (event : PublicationEvent) (s : TrackerState) :
    TrackerState :=
  match alistGet s.trackedNotes path with
  | none => s
  | some note =>
    let hist := note.publicationHistory.getD []
    let hist := hist ++ [event]
    let hist := if hist.length > 10 then hist.drop (hist.length - 10) else hist
    updatePersistedTrackingData
      { s with trackedNotes := alistSet s.trackedNotes path (
          { note with
              modified := false
            , lastPublished := some event.timestamp
            , publicationHistory := some hist }) }

/-- tracker.ts `getPublicationHistory`. -/
def getPublicationHistory (path : String) (s : TrackerState) : List PublicationEvent :=
  ((alistGet s.trackedNotes path).bind (fun n => n.publicationHistory)).getD []

/-- tracker.ts `getTrackedNotes`. -/
def getTrackedNotes (modifiedOnly : Bool) (s : TrackerState) : List PublishableNote :=
  (s.trackedNotes.map (fun pn => pn.2)).filter (fun note => !modifiedOnly || note.modified)

/-- A fresh plugin session (main.ts `onload` + `loadSettings`): a new
`NoteTracker` starts with an empty map and a cleared busy flag, while
`settings.trackingData` survives on disk. -/
def restartState (s : TrackerState) : TrackerState :=
  { trackedNotes := [], isRefreshing := false, trackingData := s.trackingData }

/-! ### Filename conversion (converter.ts) -/

/-- converter.ts `slugify`, replacement run by replacement run:
whitespace runs to `-`, strip non-word characters, collapse hyphen
runs, trim hyphens at both ends.  `\s` and `\w` are interpreted over
the ASCII range all concrete inputs live in. -/
def isWordChar (c : Char) : Bool :=
  ('a' ≤ c && c ≤ 'z') || ('A' ≤ c && c ≤ 'Z') || ('0' ≤ c && c ≤ '9') || c = '_'

def replaceSpaceRunsGo : Bool → List Char → List Char
  | _, [] => []
  | inRun, c :: rest =>
    if isJsSpace c then
      if inRun then replaceSpaceRunsGo true rest else '-' :: replaceSpaceRunsGo true rest
    else c :: replaceSpaceRunsGo false rest

/-- Global replacement of maximal whitespace runs by a single hyphen,
as a left-to-right scan. -/
def replaceSpaceRuns (l : List Char) : List Char := replaceSpaceRunsGo false l

def collapseHyphenRunsGo : Bool → List Char → List Char
  | _, [] => []
  | inRun, c :: rest =>
    if c = '-' then
      if inRun then collapseHyphenRunsGo true rest else '-' :: collapseHyphenRunsGo true rest
    else c :: collapseHyphenRunsGo false rest

/-- Global replacement of maximal runs of hyphens by a single hyphen. -/
def collapseHyphenRuns (l : List Char) : List Char := collapseHyphenRunsGo false l

def dropTrailingHyphens (l : List Char) : List Char :=
  (l.reverse.dropWhile (fun d => d = '-')).reverse

def slugify (text : String) : String :=
  let l := (asciiLower text).data
  let l := replaceSpaceRuns l
  let l := l.filter (fun c => isWordChar c || c = '-')
  let l := collapseHyphenRuns l
  let l := l.dropWhile (fun d => d = '-')
  String.mk (dropTrailingHyphens l)

/-- converter.ts `convertToSafeHugoFilename`: strip a trailing `.md`,
slugify, re-append `.md`. -/
def convertToSafeHugoFilename (filename : String) : String :=
  let nameWithoutExtension :=
    if jsEndsWith filename ".md" then String.mk (filename.data.take (filename.data.length - 3))
    else filename
  slugify nameWithoutExtension ++ ".md"

/-- `TFile.name`: the basename of the vault path. -/
def fileName (path : String) : String := ((jsSplit '/' path).getLast?).getD path

/-! ### GitHub integration (github.ts) -/

/-- types.ts `HugoGithubPublisherSettings` minus the tracking snapshot,
which lives in `TrackerState`. -/
structure PluginSettings where
  repoUrl : String
  branchRoot : String
  contentPath : String
  githubToken : String
deriving DecidableEq, Repr

/-- `new URL(u)` reduced to the (hostname, pathname) pair the code reads;
absolute http(s)-style URLs only, anything without a scheme separator
throws (returns `none`). -/
def jsUrlParse (u : String) : Option (String × String) :=
  match breakOnFirst "://".data u.data with
  | none => none
  | some (scheme, rest) =>
    if scheme.isEmpty then none
    else
      match breakOnFirst "/".data rest with
      | none => some (String.mk rest, "/")
      | some (host, path) => some (String.mk host, "/" ++ String.mk path)

/-- github.ts `getRepoInfo`. -/
def getRepoInfo (repoUrl : String) : Option (String × String) :=
  if hasSubstr repoUrl "/" && !hasSubstr repoUrl "://" then
    let parts := jsSplit '/' repoUrl
    let owner := (parts.get? 0).getD ""
    let repo := replaceFirst ((parts.get? 1).getD "") ".git" ""
    if owner ≠ "" && repo ≠ "" then some (owner, repo) else none
  else
    match jsUrlParse repoUrl with
    | none => none
    | some hp =>
      if hp.1 ≠ "github.com" then none
      else
        let parts := (jsSplit '/' hp.2).drop 1
        let owner := (parts.get? 0).getD ""
        let repo := replaceFirst ((parts.get? 1).getD "") ".git" ""
        if owner = "" || repo = "" then none else some (owner, repo)

/-- github.ts `validateSettings`: the Bool result plus the notices it
shows. -/
def validateSettingsM (st : PluginSettings) : Bool × List String :=
  if st.repoUrl = "" || st.branchRoot = "" || st.githubToken = "" then
    (false, ["GitHub configuration incomplete. Please check settings."])
  else if (getRepoInfo st.repoUrl).isNone then
    (false, ["Invalid repository format. Use \"username/repo\" format."])
  else (true, [])

/-- github.ts `generateUniqueBranchName`; `new Date().toISOString()` is the
explicit `iso` argument, and the regex char class `[:.]` (global) is a
character-wise replacement. -/
def generateUniqueBranchName (st : PluginSettings) (iso : String) : String :=
  st.branchRoot ++ "-" ++
    String.mk (iso.data.map (fun c => if c = ':' || c = '.' then '-' else c))

/-- github.ts `createOrUpdateFile` destination:
`` `${contentPath}/${filePath}` `` with the global replacement of `//`
by `/` (non-overlapping left-to-right scan, as JS regex replace). -/
def collapseSlashes : List Char → List Char
  | [] => []
  | '/' :: '/' :: rest => '/' :: collapseSlashes rest
  | c :: rest => c :: collapseSlashes rest

def fullDestPath (contentPath filePath : String) : String :=
  String.mk (collapseSlashes (contentPath ++ "/" ++ filePath).data)

/-- The remote repository's state, as far as the exercised API shape
observes it. -/
structure RemoteRepo where
  defaultBranch : String
  headSha : String
  branches : List (String × String)
  files : List ((String × String) × String)
deriving DecidableEq, Repr

/-- Transport-level fault injection: which publish-protocol step throws. -/
structure RemoteFaults where
  refFail : Bool
  branchFail : Bool
  putFail : Nat → Bool
  errMsg : String

inductive ApiCall where
  | getRepo (owner repo : String)
  | getRef (owner repo branch : String)
  | createRef (owner repo ref sha : String)
  | getContents (owner repo fullPath branch : String)
  | putContents (owner repo fullPath branch content message : String)
deriving DecidableEq, Repr

/-- The observable event stream of one publish attempt: user notices
interleaved with outgoing network requests, in program order. -/
inductive PushEvent where
  | notice (msg : String)
  | apiCall (c : ApiCall)
deriving DecidableEq, Repr

structure PushResult where
  ok : Bool
  repo : RemoteRepo
  log : List PushEvent
deriving DecidableEq, Repr

/-- The sequential upload loop of github.ts `pushToGithub`: for each file
an existence probe then a create-or-update PUT; a faulted PUT throws,
aborting the remainder (`some` error) with all earlier commits kept. -/
def uploadLoop (owner repoName branchName contentPath : String) (faults : RemoteFaults) :
    List (String × String) → Nat → RemoteRepo → List PushEvent →
    Option String × RemoteRepo × List PushEvent
  | [], _, r, log => (none, r, log)
  | f :: rest, i, r, log =>
    let fullPath := fullDestPath contentPath f.1
    let message := "Update " ++ f.1 ++ " via Obsidian Hugo Publisher"
    let log := log ++ [PushEvent.apiCall (ApiCall.getContents owner repoName fullPath branchName),
                       PushEvent.apiCall (ApiCall.putContents owner repoName fullPath branchName f.2 message)]
    if faults.putFail i then
      (some ("Failed to create/update file " ++ f.1 ++ ": " ++ faults.errMsg), r, log)
    else
      uploadLoop owner repoName branchName contentPath faults rest (i + 1)
        { r with files := alistSet r.files (branchName, fullPath) f.2 } log

/-- github.ts `pushToGithub`: validate, resolve the default branch, create
the uniquely named branch, upload sequentially; any thrown error is
caught, reported with a notice, and turned into `ok := false` — the
function never throws to its caller. -/
def pushToGithub (settings : PluginSettings) (iso : String) (faults : RemoteFaults)
    (repo : RemoteRepo) (files : List (String × String)) : PushResult :=
  let v := validateSettingsM settings
  if !v.1 then { ok := false, repo := repo, log := v.2.map PushEvent.notice }
  else
    let log := v.2.map PushEvent.notice ++
      [PushEvent.notice ("Starting publication of " ++ toString files.length ++ " files...")]
    match getRepoInfo settings.repoUrl with
    | none =>
      -- dead branch: validateSettings has already checked getRepoInfo
      { ok := false, repo := repo
      , log := log ++ [PushEvent.notice "Failed to publish to GitHub: Invalid repository format"] }
    | some orp =>
      let owner := orp.1
      let repoName := orp.2
      let log := log ++ [PushEvent.apiCall (ApiCall.getRepo owner repoName)]
      if faults.refFail then
        { ok := false, repo := repo
        , log := log ++ [PushEvent.notice
            ("Failed to publish to GitHub: Failed to get default branch: " ++ faults.errMsg)] }
      else
        let log := log ++ [PushEvent.apiCall (ApiCall.getRef owner repoName repo.defaultBranch)]
        let branchName := generateUniqueBranchName settings iso
        let log := log ++ [PushEvent.notice ("Creating branch: " ++ branchName ++ "...")]
        let log := log ++ [PushEvent.apiCall
          (ApiCall.createRef owner repoName ("refs/heads/" ++ branchName) repo.headSha)]
        if faults.branchFail then
          { ok := false, repo := repo
          , log := log ++ [PushEvent.notice
              ("Failed to publish to GitHub: Failed to create branch: " ++ faults.errMsg)] }
        else
          let repo₁ := { repo with branches := alistSet repo.branches branchName repo.headSha }
          let log := log ++ [PushEvent.notice "Uploading files to GitHub..."]
          match uploadLoop owner repoName branchName settings.contentPath faults files 0 repo₁ log with
          | (some errMsg, r, log₂) =>
            { ok := false, repo := r
            , log := log₂ ++ [PushEvent.notice ("Failed to publish to GitHub: " ++ errMsg)] }
          | (none, r, log₂) =>
            { ok := true, repo := r
            , log := log₂ ++ [PushEvent.notice
                ("Successfully published " ++ toString files.length ++
                 " files to GitHub on branch: " ++ branchName)] }

/-! ### Publish orchestration (main.ts / plugin main) -/

/-- The per-note conversion step of `publishNotes` / `publishAllNotes`:
read each note, derive the safe destination filename from the file's
basename and convert the content (`conv` stands for the external
`convertToHugoMarkdown` collaborator).  A read failure is caught per
note: the note is skipped with a notice and the rest proceeds. -/
def assembleFiles (conv : String → String → String → String) (vault : Vault)
    (notes : List PublishableNote) : List (String × String) × List String :=
  notes.foldl (fun acc n =>
    match alistGet (vault : List (String × String)) n.path with
    | some content =>
      let originalFilename := fileName n.path
      (acc.1 ++ [(convertToSafeHugoFilename originalFilename,
                  conv content n.path originalFilename)], acc.2)
    | none => (acc.1, acc.2 ++ ["Error processing " ++ fileName n.path])) ([], [])

structure PublishOutcome where
  tracker : TrackerState
  repo : RemoteRepo
  log : List PushEvent
deriving Repr

/-- `publishNotes` (plugin main): publish the *modified* tracked notes.
`pushToGithub` returns a Bool and never throws, so the orchestrator's
catch block (which would record `failure` events with branch
`"unknown"`) is unreachable; on `false` nothing is recorded.  On
success one shared event is applied to every note — its branch name is
a *second* `generateUniqueBranchName()` call at timestamp `iso₂`. -/
def publishNotes (settings : PluginSettings) (iso iso₂ : String) (now : Nat)
    (faults : RemoteFaults) (conv : String → String → String → String)
    (vault : Vault) (s : TrackerState) (repo : RemoteRepo) : PublishOutcome :=
  let notesToPublish := getTrackedNotes true s
  if notesToPublish.length = 0 then
    { tracker := s, repo := repo, log := [PushEvent.notice "No modified notes to publish."] }
  else
    let assembled := assembleFiles conv vault notesToPublish
    if assembled.1.length = 0 then
      { tracker := s, repo := repo
      , log := assembled.2.map PushEvent.notice ++
          [PushEvent.notice "No files to publish after processing."] }
    else
      let push := pushToGithub settings iso faults repo assembled.1
      if push.ok then
        let event : PublicationEvent :=
          { timestamp := now, branch := generateUniqueBranchName settings iso₂
          , commitHash := none, status := PubStatus.success, error := none }
        { tracker := notesToPublish.foldl (fun st n => markNoteAsPublished n.path event st) s
        , repo := push.repo
        , log := assembled.2.map PushEvent.notice ++ push.log }
      else
        { tracker := s, repo := push.repo
        , log := assembled.2.map PushEvent.notice ++ push.log }

/-- main.ts `publishAllNotes`: same pipeline over *all* tracked notes. -/
def publishAllNotes (settings : PluginSettings) (iso iso₂ : String) (now : Nat)
    (faults : RemoteFaults) (conv : String → String → String → String)
    (vault : Vault) (s : TrackerState) (repo : RemoteRepo) : PublishOutcome :=
  let allTrackedNotes := getTrackedNotes false s
  if allTrackedNotes.length = 0 then
    { tracker := s, repo := repo
    , log := [PushEvent.notice "No marked files found for publishing."] }
  else
    let assembled := assembleFiles conv vault allTrackedNotes
    if assembled.1.length = 0 then
      { tracker := s, repo := repo
      , log := assembled.2.map PushEvent.notice ++
          [PushEvent.notice "No files could be processed for publishing."] }
    else
      let push := pushToGithub settings iso faults repo assembled.1
      if push.ok then
        let event : PublicationEvent :=
          { timestamp := now, branch := generateUniqueBranchName settings iso₂
          , commitHash := none, status := PubStatus.success, error := none }
        { tracker := allTrackedNotes.foldl (fun st n => markNoteAsPublished n.path event st) s
        , repo := push.repo
        , log := assembled.2.map PushEvent.notice ++ push.log ++
            [PushEvent.notice ("Successfully published " ++ toString assembled.1.length ++
              " file(s) to GitHub")] }
      else
        { tracker := s, repo := push.repo
        , log := assembled.2.map PushEvent.notice ++ push.log }

/-- Notices the user sees before the first outgoing network request. -/
def noticesBeforeFirstCall (log : List PushEvent) : List String :=
  (log.takeWhile (fun e => match e with | PushEvent.notice _ => true | _ => false)).filterMap
    (fun e => match e with | PushEvent.notice m => some m | _ => none)

/-! ### Auxiliary observations used by the claim statements -/

/-- Number of file-upload PUT requests in an event log. -/
def countPuts (log : List PushEvent) : Nat :=
  log.countP (fun e => match e with
    | PushEvent.apiCall (ApiCall.putContents _ _ _ _ _ _) => true
    | _ => false)

/-- Every tracked note's publication history holds at most 10 events. -/
def historyBoundOk (s : TrackerState) : Bool :=
  s.trackedNotes.all (fun pn => decide ((pn.2.publicationHistory.getD []).length ≤ 10))

/-- A sequence of `markNoteAsPublished` calls, applied in order. -/
def applyPublishCalls (calls : List (String × PublicationEvent)) (s : TrackerState) :
    TrackerState :=
  calls.foldl (fun st pe => markNoteAsPublished pe.1 pe.2 st) s

/-- Spec-side formulation (§4.5 step 2): the ISO-8601 timestamp "with
every colon and period replaced by a hyphen", written as a direct
recursion to be compared with the source-side regex replacement. -/
def specHyphenateChars : List Char → List Char
  | [] => []
  | c :: rest =>
    (if c = ':' then '-' else if c = '.' then '-' else c) :: specHyphenateChars rest

def specIsoHyphenated (iso : String) : String := String.mk (specHyphenateChars iso.data)

/-! ### Concrete fixtures for witnesses and counterexamples -/

def exContent1 : String := "---\ntitle: Note 1\npublish: true\n---\nContent 1"

def exContent2 : String := "---\ntitle: Note 2\npublish: false\n---\nContent 2"

def ex0 : TrackerState := { trackedNotes := [], isRefreshing := false, trackingData := some [] }

def exBusy : TrackerState := { trackedNotes := [], isRefreshing := true, trackingData := some [] }

def exVault : Vault := [("a.md", exContent1), ("b.md", exContent2)]

def exBody (t : String) : String := "---\ntitle: " ++ t ++ "\npublish: true\n---\nBody " ++ t

def vault3 : Vault := [("a.md", exBody "A"), ("b.md", exBody "B"), ("c.md", exBody "C")]

def s3 : TrackerState := refreshTrackedNotes vault3 ex0

def exSettings : PluginSettings :=
  { repoUrl := "user/repo", branchRoot := "updates", contentPath := "content/posts"
  , githubToken := "tok" }

def exIso : String := "2026-10-12T10:00:00.000Z"

def exRepo : RemoteRepo :=
  { defaultBranch := "main", headSha := "abc123", branches := [], files := [] }

def noFaults : RemoteFaults :=
  { refFail := false, branchFail := false, putFail := fun _ => false, errMsg := "network error" }

/-- A transport error thrown by the upload of the 2nd file (index 1). -/
def failSecond : RemoteFaults :=
  { refFail := false, branchFail := false, putFail := fun i => i == 1, errMsg := "network error" }

/-- A stand-in for the external `convertToHugoMarkdown` collaborator. -/
def exConv : String → String → String → String := fun content _ _ => content

def exFiles3 : List (String × String) :=
  (assembleFiles exConv vault3 (getTrackedNotes true s3)).1

def exC4Out : PublishOutcome :=
  publishNotes exSettings exIso exIso 1000 failSecond exConv vault3 s3 exRepo

/-- Two distinct source documents whose names both reduce to `post.md`. -/
def vaultColl : Vault := [("Post.md", exBody "P1"), ("post.md", exBody "P2")]

def sColl : TrackerState := refreshTrackedNotes vaultColl ex0

def vaultPlain : Vault := [("a.md", exBody "A"), ("b.md", exBody "B")]

def sPlain : TrackerState := refreshTrackedNotes vaultPlain ex0

def exEvent (i : Nat) : PublicationEvent :=
  { timestamp := i, branch := "updates-x", commitHash := none
  , status := PubStatus.success, error := none }

def exTenEvents : List PublicationEvent := (List.range 10).map exEvent

/-- A tracked note that already carries a full (10-event) history. -/
def exNoteFull : PublishableNote :=
  { path := "a.md", frontmatter := [("publish", FMVal.b true)], lastPublished := some 9
  , modified := true, contentHash := generateContentHash exContent1
  , publicationHistory := some exTenEvents }

def exStateFull : TrackerState :=
  { trackedNotes := [("a.md", exNoteFull)], isRefreshing := false, trackingData := some [] }

/-- A tracked, previously published note about to be renamed. -/
def exNoteOld : PublishableNote :=
  { path := "old.md", frontmatter := [("publish", FMVal.b true)], lastPublished := some 42
  , modified := false, contentHash := generateContentHash (exBody "Old")
  , publicationHistory := some [exEvent 42] }

def exStateOld : TrackerState :=
  { trackedNotes := [("old.md", exNoteOld)], isRefreshing := false, trackingData := some [] }

/-! ### Helper lemmas about association lists -/

theorem alistGet_set_self {κ α : Type} [DecidableEq κ] (m : List (κ × α)) (k : κ) (v : α) :
    alistGet (alistSet m k v) k = some v := by
  induction m with
  | nil => simp [alistSet, alistGet]
  | cons p rest ih =>
    by_cases h : p.1 = k
    · simp [alistSet, alistGet, h]
    · simp [alistSet, alistGet, h, ih]

theorem alistGet_set_ne {κ α : Type} [DecidableEq κ] (m : List (κ × α)) (k k' : κ) (v : α)
    (h : k' ≠ k) : alistGet (alistSet m k v) k' = alistGet m k' := by
  have hkk' : ¬ k = k' := fun hc => h hc.symm
  induction m with
  | nil => simp [alistSet, alistGet, hkk']
  | cons p rest ih =>
    by_cases hp : p.1 = k
    · simp [alistSet, alistGet, hp, hkk']
    · simp [alistSet, alistGet, hp, ih]

theorem alistGet_set_eq_ite {κ α : Type} [DecidableEq κ] (m : List (κ × α)) (k k' : κ) (v : α) :
    alistGet (alistSet m k v) k' = if k' = k then some v else alistGet m k' := by
  by_cases h : k' = k
  · subst h; simp [alistGet_set_self]
  · simp [h, alistGet_set_ne m k k' v h]

theorem alistGet_set_isSome {κ α : Type} [DecidableEq κ] (m : List (κ × α)) (k k' : κ) (v : α) :
    (alistGet (alistSet m k v) k').isSome = true ↔
      k' = k ∨ (alistGet m k').isSome = true := by
  rw [alistGet_set_eq_ite]
  by_cases h : k' = k <;> simp [h]

theorem alistGet_del_self {κ α : Type} [DecidableEq κ] (m : List (κ × α)) (k : κ) :
    alistGet (alistDel m k) k = none := by
  induction m with
  | nil => simp [alistDel, alistGet]
  | cons p rest ih =>
    by_cases h : p.1 = k
    · simp [alistDel, h, ih]
    · simp [alistDel, alistGet, h, ih]

theorem alistGet_del_ne {κ α : Type} [DecidableEq κ] (m : List (κ × α)) (k k' : κ)
    (h : k' ≠ k) : alistGet (alistDel m k) k' = alistGet m k' := by
  have hkk' : ¬ k = k' := fun hc => h hc.symm
  induction m with
  | nil => simp [alistDel]
  | cons p rest ih =>
    by_cases hp : p.1 = k
    · simp [alistDel, alistGet, hp, hkk', ih]
    · simp [alistDel, alistGet, hp, ih]

theorem alistGet_mapVal {κ α β : Type} [DecidableEq κ] (m : List (κ × α))
    (f : κ → α → β) (k : κ) :
    alistGet (m.map (fun p => (p.1, f p.1 p.2))) k = (alistGet m k).map (f k) := by
  induction m with
  | nil => simp [alistGet]
  | cons p rest ih =>
    by_cases h : p.1 = k
    · subst h; simp [alistGet]
    · simp [alistGet, h, ih]

theorem mem_alistSet {κ α : Type} [DecidableEq κ] (m : List (κ × α)) (k : κ) (v : α)
    (x : κ × α) (hx : x ∈ alistSet m k v) : x = (k, v) ∨ x ∈ m := by
  induction m with
  | nil => simpa [alistSet] using hx
  | cons p rest ih =>
    by_cases h : p.1 = k
    · simp only [alistSet, h, if_pos] at hx
      rcases List.mem_cons.mp hx with h1 | h2
      · exact Or.inl h1
      · exact Or.inr (List.mem_cons_of_mem _ h2)
    · simp only [alistSet, h, if_neg, not_false_iff] at hx
      rcases List.mem_cons.mp hx with h1 | h2
      · exact Or.inr (h1 ▸ List.mem_cons_self _ _)
      · rcases ih h2 with h3 | h4
        · exact Or.inl h3
        · exact Or.inr (List.mem_cons_of_mem _ h4)

theorem fst_mem_alistSet_self {κ α : Type} [DecidableEq κ] (m : List (κ × α)) (k : κ) (v : α) :
    k ∈ (alistSet m k v).map Prod.fst := by
  induction m with
  | nil => simp [alistSet]
  | cons p rest ih =>
    by_cases h : p.1 = k
    · simp [alistSet, h]
    · simp only [alistSet, h, if_neg, not_false_iff, List.map_cons, List.mem_cons]
      exact Or.inr ih

theorem fst_mem_alistSet_of_mem {κ α : Type} [DecidableEq κ] (m : List (κ × α)) (k k' : κ)
    (v : α) (h : k' ∈ m.map Prod.fst) : k' ∈ (alistSet m k v).map Prod.fst := by
  induction m with
  | nil => simp at h
  | cons p rest ih =>
    simp only [alistSet]
    by_cases hp : p.1 = k
    · rw [if_pos hp]
      simp only [List.map_cons, List.mem_cons] at h ⊢
      rcases h with h1 | h2
      · exact Or.inl (hp ▸ h1)
      · exact Or.inr h2
    · rw [if_neg hp]
      simp only [List.map_cons, List.mem_cons] at h ⊢
      rcases h with h1 | h2
      · exact Or.inl h1
      · exact Or.inr (ih h2)

theorem updatePersisted_trackedNotes (s : TrackerState) :
    (updatePersistedTrackingData s).trackedNotes = s.trackedNotes := rfl

/-! ### Claim C8 -/

/-- Claim C8: a `refreshTrackedNotes` call made while another refresh is
already in progress (busy flag set) returns immediately as a no-op: the
state — tracked set and persisted snapshot included — is unchanged. -/
theorem c8_concurrent_refresh_noop (vault : Vault) (s : TrackerState)
    (h : s.isRefreshing = true) : refreshTrackedNotes vault s = s := by
  simp [refreshTrackedNotes, h]

theorem c8_concurrent_refresh_noop_witness :
    exBusy.isRefreshing = true ∧ refreshTrackedNotes exVault exBusy = exBusy :=
  ⟨rfl, c8_concurrent_refresh_noop exVault exBusy rfl⟩

/-! ### Claim C9 -/

theorem specHyphenateChars_eq_map (l : List Char) :
    l.map (fun c => if c = ':' || c = '.' then '-' else c) = specHyphenateChars l := by
  induction l with
  | nil => rfl
  | cons c rest ih =>
    simp only [List.map_cons, specHyphenateChars, ih]
    by_cases h1 : c = ':'
    · simp [h1]
    · by_cases h2 : c = '.'
      · simp [h1, h2]
      · simp [h1, h2]

/-- Claim C9: for every configured branch root and every timestamp, the
generated branch name is the configured root, a hyphen, and the ISO-8601
representation of the timestamp with every colon and period replaced by
a hyphen (`specIsoHyphenated` is the spec-side formulation). -/
theorem c9_branch_name_format (settings : PluginSettings) (iso : String) :
    generateUniqueBranchName settings iso =
      settings.branchRoot ++ "-" ++ specIsoHyphenated iso := by
  unfold generateUniqueBranchName specIsoHyphenated
  rw [specHyphenateChars_eq_map]

/-! ### Claim C7 -/

/-- Claim C7: renaming a tracked note to a path whose content still
carries `publish: true` yields a record at the new identity that keeps
the old `lastPublished`, has `modified = true` regardless of fingerprint
equality, and the old identity is fully absent afterwards. -/
theorem c7_rename_keeps_lastPublished_forces_modified (s : TrackerState)
    (oldPath newPath newContent : String) (oldData : PublishableNote)
    (fm : List (String × FMVal))
    (hold : alistGet s.trackedNotes oldPath = some oldData)
    (hfm : extractFrontmatter newContent = some fm)
    (hpub : publishTrue fm = true)
    (hne : oldPath ≠ newPath) :
    alistGet (handleFileRename oldPath newPath newContent s).trackedNotes newPath =
      some { path := newPath
           , frontmatter := fm
           , lastPublished := oldData.lastPublished
           , modified := true
           , contentHash := generateContentHash newContent
           , publicationHistory := none } ∧
    alistGet (handleFileRename oldPath newPath newContent s).trackedNotes oldPath = none := by
  unfold handleFileRename
  rw [hold, hfm]
  simp only [hpub, if_pos, updatePersisted_trackedNotes]
  constructor
  · exact alistGet_set_self _ _ _
  · rw [alistGet_set_ne _ _ _ _ hne]
    exact alistGet_del_self _ _

theorem c7_rename_keeps_lastPublished_forces_modified_witness :
    alistGet (handleFileRename "old.md" "new.md" (exBody "Old") exStateOld).trackedNotes
        "new.md" =
      some { path := "new.md"
           , frontmatter := (extractFrontmatter (exBody "Old")).getD []
           , lastPublished := some 42
           , modified := true
           , contentHash := generateContentHash (exBody "Old")
           , publicationHistory := none } ∧
    alistGet (handleFileRename "old.md" "new.md" (exBody "Old") exStateOld).trackedNotes
        "old.md" = none :=
  c7_rename_keeps_lastPublished_forces_modified exStateOld "old.md" "new.md" (exBody "Old")
    exNoteOld ((extractFrontmatter (exBody "Old")).getD []) (by decide) (by decide) (by decide)
    (by decide)

/-! ### Claim C10 -/

/-- Claim C10: renaming a tracked note with a non-empty publication
history to a path still carrying `publish: true` produces a record with
no history carried over — `getPublicationHistory` of the new identity is
empty — even though `lastPublished` is preserved. -/
theorem c10_rename_drops_history (s : TrackerState)
    (oldPath newPath newContent : String) (oldData : PublishableNote)
    (fm : List (String × FMVal))
    (hold : alistGet s.trackedNotes oldPath = some oldData)
    (_hhist : oldData.publicationHistory.getD [] ≠ [])
    (hfm : extractFrontmatter newContent = some fm)
    (hpub : publishTrue fm = true) :
    getPublicationHistory newPath (handleFileRename oldPath newPath newContent s) = [] ∧
    (alistGet (handleFileRename oldPath newPath newContent s).trackedNotes newPath).map
        (fun n => n.lastPublished) = some oldData.lastPublished := by
  unfold handleFileRename
  rw [hold, hfm]
  simp only [hpub, if_pos, getPublicationHistory, updatePersisted_trackedNotes]
  rw [alistGet_set_self]
  exact ⟨rfl, rfl⟩

theorem c10_rename_drops_history_witness :
    (getPublicationHistory "new.md"
        (handleFileRename "old.md" "new.md" (exBody "Old") exStateOld) = [] ∧
      (alistGet (handleFileRename "old.md" "new.md" (exBody "Old") exStateOld).trackedNotes
          "new.md").map (fun n => n.lastPublished) = some (some 42)) ∧
    getPublicationHistory "old.md" exStateOld = [exEvent 42] :=
  ⟨c10_rename_drops_history exStateOld "old.md" "new.md" (exBody "Old") exNoteOld
      ((extractFrontmatter (exBody "Old")).getD []) (by decide) (by decide) (by decide)
      (by decide)
  , by decide⟩

/-! ### Claim C6 -/

theorem alistGet_mem {κ α : Type} [DecidableEq κ] (m : List (κ × α)) (k : κ) (v : α)
    (h : alistGet m k = some v) : (k, v) ∈ m := by
  induction m with
  | nil => simp [alistGet] at h
  | cons p rest ih =>
    by_cases hp : p.1 = k
    · simp only [alistGet, hp, if_pos] at h
      injection h with hv
      subst hv
      rw [← hp]
      exact List.mem_cons_self _ _
    · simp only [alistGet, hp, if_neg, not_false_iff] at h
      exact List.mem_cons_of_mem _ (ih h)

theorem markNoteAsPublished_historyBound (s : TrackerState) (path : String)
    (event : PublicationEvent) (h : historyBoundOk s = true) :
    historyBoundOk (markNoteAsPublished path event s) = true := by
  unfold markNoteAsPublished
  cases hget : alistGet s.trackedNotes path with
  | none => exact h
  | some note =>
    have hmem := alistGet_mem _ _ _ hget
    simp only [historyBoundOk, List.all_eq_true] at h ⊢
    have hlen : (note.publicationHistory.getD []).length ≤ 10 := by
      have := h _ hmem
      simpa using this
    intro pn hpn
    simp only [updatePersisted_trackedNotes] at hpn
    rcases mem_alistSet _ _ _ _ hpn with heq | hmem'
    · subst heq
      simp only [Option.getD_some, decide_eq_true_eq]
      by_cases hgt : (note.publicationHistory.getD [] ++ [event]).length > 10
      · rw [if_pos hgt]
        rw [List.length_drop]
        omega
      · rw [if_neg hgt]
        omega
    · exact h pn hmem'

/-- Claim C6: every tracked note's publication history stays at length at
most 10 across any sequence of `markNoteAsPublished` calls, and
appending an 11th event drops the oldest (front) entry, keeping the 10
most recent events in chronological order. -/
theorem c6_history_bounded_and_evicts :
    (∀ (calls : List (String × PublicationEvent)) (s : TrackerState),
        historyBoundOk s = true → historyBoundOk (applyPublishCalls calls s) = true) ∧
    (∀ (s : TrackerState) (path : String) (event : PublicationEvent)
        (note : PublishableNote),
        alistGet s.trackedNotes path = some note →
        (note.publicationHistory.getD []).length = 10 →
        alistGet (markNoteAsPublished path event s).trackedNotes path =
          some { note with
                   modified := false
                 , lastPublished := some event.timestamp
                 , publicationHistory :=
                     some ((note.publicationHistory.getD []).drop 1 ++ [event]) }) := by
  constructor
  · intro calls
    induction calls with
    | nil => intro s h; exact h
    | cons pe rest ih =>
      intro s h
      exact ih _ (markNoteAsPublished_historyBound s pe.1 pe.2 h)
  · intro s path event note hget hlen
    unfold markNoteAsPublished
    rw [hget]
    simp only [updatePersisted_trackedNotes]
    rw [alistGet_set_self]
    have hgt : (note.publicationHistory.getD [] ++ [event]).length > 10 := by
      simp [hlen]
    rw [if_pos hgt]
    have hdrop : (note.publicationHistory.getD [] ++ [event]).length - 10 = 1 := by
      simp [hlen]
    rw [hdrop, List.drop_append_of_le_length (by omega)]

theorem c6_history_bounded_and_evicts_witness :
    (historyBoundOk exStateFull = true ∧
      historyBoundOk (applyPublishCalls [("a.md", exEvent 10)] exStateFull) = true) ∧
    ((exNoteFull.publicationHistory.getD []).length = 10 ∧
      alistGet (markNoteAsPublished "a.md" (exEvent 10) exStateFull).trackedNotes "a.md" =
        some { exNoteFull with
                 modified := false
               , lastPublished := some 10
               , publicationHistory :=
                   some ((exNoteFull.publicationHistory.getD []).drop 1 ++ [exEvent 10]) }) :=
  ⟨⟨by decide, c6_history_bounded_and_evicts.1 [("a.md", exEvent 10)] exStateFull (by decide)⟩,
   ⟨by decide,
    c6_history_bounded_and_evicts.2 exStateFull "a.md" (exEvent 10) exNoteFull rfl (by decide)⟩⟩

/-! ### Claim C1 -/

theorem alistGet_map_isSome {κ α β : Type} [DecidableEq κ] (m : List (κ × α))
    (g : κ × α → β) (k : κ) :
    (alistGet (m.map (fun p => (p.1, g p))) k).isSome = (alistGet m k).isSome := by
  induction m with
  | nil => simp [alistGet]
  | cons p rest ih =>
    by_cases h : p.1 = k <;> simp [alistGet, h, ih]

theorem refreshFoldStep_get_isSome (s : TrackerState) (acc : List (String × PublishableNote))
    (file : String × String) (path : String) :
    (alistGet (refreshFoldStep s acc file) path).isSome = true ↔
      (path = file.1 ∧ isPublishable file.2 = true) ∨ (alistGet acc path).isSome = true := by
  cases hfm : extractFrontmatter file.2 with
  | none => simp [refreshFoldStep, isPublishable, hfm]
  | some fm =>
    by_cases hp : publishTrue fm = true
    · simp only [refreshFoldStep, isPublishable, hfm, hp, if_pos]
      rw [alistGet_set_isSome]
      tauto
    · have hp' : publishTrue fm = false := by
        cases hb : publishTrue fm
        · rfl
        · exact absurd hb hp
      simp [refreshFoldStep, isPublishable, hfm, hp']

theorem refresh_fold_get_isSome (s : TrackerState) (path : String) :
    ∀ (vault : List (String × String)) (acc : List (String × PublishableNote)),
      (alistGet (vault.foldl (refreshFoldStep s) acc) path).isSome = true ↔
        (∃ c, (path, c) ∈ vault ∧ isPublishable c = true) ∨
          (alistGet acc path).isSome = true := by
  intro vault
  induction vault with
  | nil => intro acc; simp
  | cons file rest ih =>
    intro acc
    rw [List.foldl_cons, ih, refreshFoldStep_get_isSome]
    constructor
    · rintro (⟨c, hc, hpub⟩ | (⟨heq, hpub⟩ | hacc))
      · exact Or.inl ⟨c, List.mem_cons_of_mem _ hc, hpub⟩
      · refine Or.inl ⟨file.2, ?_, hpub⟩
        rw [heq]
        exact List.mem_cons_self _ _
      · exact Or.inr hacc
    · rintro (⟨c, hc, hpub⟩ | hacc)
      · rcases List.mem_cons.mp hc with h1 | h2
        · have hpath : path = file.1 := by rw [← h1]
          have hc2 : c = file.2 := by rw [← h1]
          exact Or.inr (Or.inl ⟨hpath, hc2 ▸ hpub⟩)
        · exact Or.inl ⟨c, h2, hpub⟩
      · exact Or.inr (Or.inr hacc)

theorem updatePersisted_get_isSome (s : TrackerState) (path : String) :
    ∀ td, (updatePersistedTrackingData s).trackingData = some td →
      (alistGet td path).isSome = (alistGet s.trackedNotes path).isSome := by
  intro td htd
  simp only [updatePersistedTrackingData] at htd
  injection htd with htd'
  subst htd'
  exact alistGet_map_isSome s.trackedNotes (fun q =>
    ({ path := q.1
     , lastPublished := q.2.lastPublished
     , contentHash := some q.2.contentHash
     , frontmatterHash := some (generateFrontmatterHash q.2.frontmatter)
     , publicationHistory := some (q.2.publicationHistory.getD []) } : PersistedNoteData)) path

/-- Claim C1: after a completed full-scan reconciliation
(`refreshTrackedNotes` entered with the busy flag clear), an identity is
tracked iff some markdown file at that path currently extracts
frontmatter with `publish == true`; the same holds for the rewritten
persisted snapshot, so any identity of the old index absent from the
fresh scan is dropped from both. -/
theorem c1_refresh_tracks_iff_publish (vault : Vault) (s : TrackerState)
    (hr : s.isRefreshing = false) (path : String) :
    ((alistGet (refreshTrackedNotes vault s).trackedNotes path).isSome = true ↔
        ∃ c, (path, c) ∈ vault ∧ isPublishable c = true) ∧
    (∀ td, (refreshTrackedNotes vault s).trackingData = some td →
        ((alistGet td path).isSome = true ↔
          ∃ c, (path, c) ∈ vault ∧ isPublishable c = true)) := by
  have hnr : ¬ s.isRefreshing = true := by rw [hr]; exact Bool.false_ne_true
  unfold refreshTrackedNotes
  rw [if_neg hnr]
  constructor
  · simp only [updatePersisted_trackedNotes]
    rw [refresh_fold_get_isSome]
    simp [alistGet]
  · intro td htd
    rw [updatePersisted_get_isSome _ path td htd, refresh_fold_get_isSome]
    simp [alistGet]

theorem c1_refresh_tracks_iff_publish_witness :
    ((alistGet (refreshTrackedNotes exVault ex0).trackedNotes "a.md").isSome = true ↔
        ∃ c, ("a.md", c) ∈ exVault ∧ isPublishable c = true) ∧
    ((alistGet (refreshTrackedNotes exVault ex0).trackedNotes "b.md").isSome = true ↔
        ∃ c, ("b.md", c) ∈ exVault ∧ isPublishable c = true) :=
  ⟨(c1_refresh_tracks_iff_publish exVault ex0 rfl "a.md").1,
   (c1_refresh_tracks_iff_publish exVault ex0 rfl "b.md").1⟩

/-! ### Claim C2 -/

theorem refresh_fold_note_char (s : TrackerState) (path : String) :
    ∀ (vault : List (String × String)) (acc : List (String × PublishableNote)),
      (∀ note, alistGet acc path = some note →
        note.modified = (match alistGet s.trackedNotes path with
                         | none => true
                         | some old => decide (old.contentHash ≠ note.contentHash)) ∧
        note.lastPublished = (alistGet s.trackedNotes path).bind (fun n => n.lastPublished)) →
      ∀ note, alistGet (vault.foldl (refreshFoldStep s) acc) path = some note →
        note.modified = (match alistGet s.trackedNotes path with
                         | none => true
                         | some old => decide (old.contentHash ≠ note.contentHash)) ∧
        note.lastPublished = (alistGet s.trackedNotes path).bind (fun n => n.lastPublished) := by
  intro vault
  induction vault with
  | nil => intro acc hacc; exact hacc
  | cons file rest ih =>
    intro acc hacc
    rw [List.foldl_cons]
    apply ih
    intro note hnote
    revert hnote
    unfold refreshFoldStep
    cases hfm : extractFrontmatter file.2 with
    | none => exact hacc note
    | some fm =>
      by_cases hp : publishTrue fm = true
      · simp only [hp, if_pos]
        rw [alistGet_set_eq_ite]
        by_cases hpath : path = file.1
        · rw [if_pos hpath]
          subst hpath
          intro hnote
          injection hnote with hnote'
          subst hnote'
          cases hold : alistGet s.trackedNotes file.1 with
          | none => simp [hold]
          | some old => simp [hold]
        · rw [if_neg hpath]
          exact hacc note
      · have hp' : publishTrue fm = false := by
          cases hb : publishTrue fm
          · rfl
          · exact absurd hb hp
        simp only [hp', Bool.false_eq_true, if_false]
        exact hacc note

/-- Claim C2 (amended): the `modified` flag a full scan assigns to a note
does not depend on whether the note has ever been published: for every
note present after `refreshTrackedNotes`, `modified` is exactly "no
previous in-memory record, or the content hash changed since that
record", while `lastPublished` is carried over unchanged.  Consequently
a never-published note is `modified` when first observed, but a second
refresh with unchanged content resets `modified` to `false` even though
the note has never been published. -/
theorem c2_refresh_modified_is_hash_delta (vault : Vault) (s : TrackerState)
    (hr : s.isRefreshing = false) (path : String) (note : PublishableNote)
    (hnote : alistGet (refreshTrackedNotes vault s).trackedNotes path = some note) :
    note.modified = (match alistGet s.trackedNotes path with
                     | none => true
                     | some old => decide (old.contentHash ≠ note.contentHash)) ∧
    note.lastPublished = (alistGet s.trackedNotes path).bind (fun n => n.lastPublished) := by
  have hnr : ¬ s.isRefreshing = true := by rw [hr]; exact Bool.false_ne_true
  rw [refreshTrackedNotes, if_neg hnr] at hnote
  simp only [updatePersisted_trackedNotes] at hnote
  exact refresh_fold_note_char s path vault []
    (by intro n hn; simp [alistGet] at hn) note hnote

theorem c2_refresh_modified_is_hash_delta_witness :
    (alistGet (refreshTrackedNotes exVault (refreshTrackedNotes exVault ex0)).trackedNotes
        "a.md").isSome = true ∧
    (∀ note, alistGet (refreshTrackedNotes exVault (refreshTrackedNotes exVault ex0)).trackedNotes
        "a.md" = some note →
      note.modified = (match alistGet (refreshTrackedNotes exVault ex0).trackedNotes "a.md" with
                       | none => true
                       | some old => decide (old.contentHash ≠ note.contentHash)) ∧
      note.lastPublished = (alistGet (refreshTrackedNotes exVault ex0).trackedNotes "a.md").bind
        (fun n => n.lastPublished)) :=
  ⟨by decide,
   fun note hnote =>
     c2_refresh_modified_is_hash_delta exVault (refreshTrackedNotes exVault ex0) rfl
       "a.md" note hnote⟩

/-- Claim C2 counterexample: after two refreshes of an unchanged vault,
the note `a.md` is tracked, has never been published
(`lastPublished = none`), and yet `modified = false` — contradicting
"modified stays true for a never-published note across any number of
refreshTrackedNotes calls with unchanged content". -/
theorem c2_counterexample :
    (alistGet (refreshTrackedNotes exVault (refreshTrackedNotes exVault ex0)).trackedNotes
        "a.md").map (fun n => (n.lastPublished, n.modified)) = some (none, false) := by
  decide

/-! ### Claim C3 -/

theorem init_fold_note_char (path : String) (p : PersistedNoteData) :
    ∀ (vault : List (String × String))
      (acc : List (String × PublishableNote) × List (String × PersistedNoteData)),
      (∀ q, alistGet acc.2 path = some q → q = p) →
      (∀ note, alistGet acc.1 path = some note →
         note.modified = decide (p.contentHash ≠ some note.contentHash) ∧
         note.lastPublished = p.lastPublished ∧
         note.publicationHistory = some (p.publicationHistory.getD [])) →
      ∀ note, alistGet (vault.foldl initFoldStep acc).1 path = some note →
        note.modified = decide (p.contentHash ≠ some note.contentHash) ∧
        note.lastPublished = p.lastPublished ∧
        note.publicationHistory = some (p.publicationHistory.getD []) := by
  intro vault
  induction vault with
  | nil => intro acc _ hlive; exact hlive
  | cons file rest ih =>
    intro acc hsnap hlive
    rw [List.foldl_cons]
    apply ih
    · -- the snapshot invariant survives one step
      intro q hq
      revert hq
      unfold initFoldStep
      cases hpd : alistGet acc.2 file.1 with
      | none => exact hsnap q
      | some pd =>
        cases hfm : extractFrontmatter file.2 with
        | none =>
          by_cases hpath : path = file.1
          · subst hpath
            rw [alistGet_del_self]
            intro hq
            cases hq
          · rw [alistGet_del_ne _ _ _ hpath]
            exact hsnap q
        | some fm =>
          by_cases hpb : publishTrue fm = true
          · simp only [hpb, if_pos]
            exact hsnap q
          · have hpb' : publishTrue fm = false := by
              cases hb : publishTrue fm
              · rfl
              · exact absurd hb hpb
            simp only [hpb', Bool.false_eq_true, if_false]
            by_cases hpath : path = file.1
            · subst hpath
              rw [alistGet_del_self]
              intro hq
              cases hq
            · rw [alistGet_del_ne _ _ _ hpath]
              exact hsnap q
    · -- the live-map invariant survives one step
      intro note hnote
      revert hnote
      unfold initFoldStep
      cases hpd : alistGet acc.2 file.1 with
      | none => exact hlive note
      | some pd =>
        cases hfm : extractFrontmatter file.2 with
        | none => exact hlive note
        | some fm =>
          by_cases hpb : publishTrue fm = true
          · simp only [hpb, if_pos]
            rw [alistGet_set_eq_ite]
            by_cases hpath : path = file.1
            · rw [if_pos hpath]
              subst hpath
              intro hnote
              injection hnote with hnote'
              subst hnote'
              have hpp : pd = p := hsnap pd hpd
              subst hpp
              exact ⟨rfl, rfl, rfl⟩
            · rw [if_neg hpath]
              exact hlive note
          · have hpb' : publishTrue fm = false := by
              cases hb : publishTrue fm
              · rfl
              · exact absurd hb hpb
            simp only [hpb', Bool.false_eq_true, if_false]
            exact hlive note

/-- Claim C3 (amended): reloading the persisted snapshot after a restart
(`initializeFromPersistedData` on a fresh tracker) does not restore the
`modified` flag — it recomputes it as "persisted contentHash differs
from the hash of the current content" (while `lastPublished` and the
history are restored verbatim).  Hence the persist/reload round trip
preserves `modified` only when the old flag happened to equal that
recomputation; a note persisted with `modified = true` and an
up-to-date contentHash (e.g. a never-published, newly scanned note)
reloads with `modified = false` even though the store is unchanged. -/
theorem c3_reload_modified_recomputed (vault : Vault) (s : TrackerState)
    (td : List (String × PersistedNoteData)) (htd : s.trackingData = some td)
    (path : String) (p : PersistedNoteData) (hp : alistGet td path = some p)
    (note : PublishableNote)
    (hnote : alistGet (initializeFromPersistedData vault (restartState s)).trackedNotes path
       = some note) :
    note.modified = decide (p.contentHash ≠ some note.contentHash) ∧
    note.lastPublished = p.lastPublished ∧
    note.publicationHistory = some (p.publicationHistory.getD []) := by
  simp only [initializeFromPersistedData, restartState, htd] at hnote
  refine init_fold_note_char path p vault ([], td) ?_ ?_ note hnote
  · intro q hq
    rw [hp] at hq
    injection hq with hq'
    exact hq'.symm
  · intro n hn
    simp [alistGet] at hn

theorem c3_reload_modified_recomputed_witness :
    ((refreshTrackedNotes exVault ex0).trackingData = some
        [("a.md", { path := "a.md", lastPublished := none, contentHash := some "-27617d80"
                  , frontmatterHash := some "-4e1e185c", publicationHistory := some [] })] ∧
      alistGet (initializeFromPersistedData exVault
          (restartState (refreshTrackedNotes exVault ex0))).trackedNotes "a.md" =
        some { path := "a.md"
             , frontmatter := [("title", FMVal.s "Note 1"), ("publish", FMVal.b true)]
             , lastPublished := none, modified := false, contentHash := "-27617d80"
             , publicationHistory := some [] }) ∧
    ({ path := "a.md"
     , frontmatter := [("title", FMVal.s "Note 1"), ("publish", FMVal.b true)]
     , lastPublished := none, modified := false, contentHash := "-27617d80"
     , publicationHistory := some [] } : PublishableNote).modified =
        decide (some "-27617d80" ≠
          some ({ path := "a.md"
                , frontmatter := [("title", FMVal.s "Note 1"), ("publish", FMVal.b true)]
                , lastPublished := none, modified := false, contentHash := "-27617d80"
                , publicationHistory := some [] } : PublishableNote).contentHash) ∧
      ({ path := "a.md"
       , frontmatter := [("title", FMVal.s "Note 1"), ("publish", FMVal.b true)]
       , lastPublished := none, modified := false, contentHash := "-27617d80"
       , publicationHistory := some [] } : PublishableNote).lastPublished = none ∧
      ({ path := "a.md"
       , frontmatter := [("title", FMVal.s "Note 1"), ("publish", FMVal.b true)]
       , lastPublished := none, modified := false, contentHash := "-27617d80"
       , publicationHistory := some [] } : PublishableNote).publicationHistory =
        some (((none : Option (List PublicationEvent))).getD []) :=
  ⟨⟨by decide, by decide⟩,
   by
    have h := c3_reload_modified_recomputed exVault (refreshTrackedNotes exVault ex0)
      [("a.md", { path := "a.md", lastPublished := none, contentHash := some "-27617d80"
                , frontmatterHash := some "-4e1e185c", publicationHistory := some [] })]
      (by decide) "a.md"
      { path := "a.md", lastPublished := none, contentHash := some "-27617d80"
      , frontmatterHash := some "-4e1e185c", publicationHistory := some [] }
      (by decide)
      { path := "a.md"
      , frontmatter := [("title", FMVal.s "Note 1"), ("publish", FMVal.b true)]
      , lastPublished := none, modified := false, contentHash := "-27617d80"
      , publicationHistory := some [] }
      (by decide)
    exact h⟩

/-- Claim C3 counterexample: persist (a refresh writes the snapshot
wholesale) and reload with the store unchanged: before persistence the
note `a.md` has `modified = true`; after the reload it has
`modified = false` — the round trip does not preserve the flag. -/
theorem c3_counterexample :
    ((alistGet (refreshTrackedNotes exVault ex0).trackedNotes "a.md").map
        (fun n => n.modified) = some true) ∧
    ((alistGet (initializeFromPersistedData exVault
          (restartState (refreshTrackedNotes exVault ex0))).trackedNotes "a.md").map
        (fun n => n.modified) = some false) := by
  decide

/-! ### Claim C4 -/

theorem countPuts_append (a b : List PushEvent) :
    countPuts (a ++ b) = countPuts a + countPuts b := by
  simp [countPuts, List.countP_append]

theorem countPuts_notices (ms : List String) :
    countPuts (ms.map PushEvent.notice) = 0 := by
  induction ms with
  | nil => rfl
  | cons m rest ih =>
    simp only [List.map_cons, countPuts, List.countP_cons] at ih ⊢
    simp [ih]

theorem uploadLoop_fail_char (owner repoName branchName contentPath : String)
    (faults : RemoteFaults) :
    ∀ (files : List (String × String)) (k i : Nat) (r : RemoteRepo) (log : List PushEvent),
      k < files.length → faults.putFail (i + k) = true →
      (∀ j, j < k → faults.putFail (i + j) = false) →
      ∃ err r' log',
        uploadLoop owner repoName branchName contentPath faults files i r log
          = (some err, r', log') ∧
        r'.branches = r.branches ∧
        countPuts log' = countPuts log + (k + 1) ∧
        (∀ key, key ∈ r.files.map Prod.fst → key ∈ r'.files.map Prod.fst) ∧
        (∀ f ∈ files.take k,
          (branchName, fullDestPath contentPath f.1) ∈ r'.files.map Prod.fst) := by
  intro files
  induction files with
  | nil =>
    intro k i r log hk
    exact absurd hk (by simp)
  | cons f rest ih =>
    intro k i r log hk hfk hjk
    cases k with
    | zero =>
      have hfi : faults.putFail i = true := by simpa using hfk
      refine ⟨"Failed to create/update file " ++ f.1 ++ ": " ++ faults.errMsg, r,
        log ++ [PushEvent.apiCall (ApiCall.getContents owner repoName
                  (fullDestPath contentPath f.1) branchName),
                PushEvent.apiCall (ApiCall.putContents owner repoName
                  (fullDestPath contentPath f.1) branchName f.2
                  ("Update " ++ f.1 ++ " via Obsidian Hugo Publisher"))], ?_, rfl, ?_, ?_, ?_⟩
      · simp only [uploadLoop, hfi, if_pos]
      · rw [countPuts_append]
        simp [countPuts, List.countP_cons]
      · intro key hkey
        exact hkey
      · intro f' hf'
        simp at hf'
    | succ k' =>
      have hfi : faults.putFail i = false := by
        have := hjk 0 (Nat.succ_pos k')
        simpa using this
      have hk' : k' < rest.length := by simpa using hk
      have hfk' : faults.putFail (i + 1 + k') = true := by
        have : i + 1 + k' = i + (k' + 1) := by omega
        rw [this]
        exact hfk
      have hjk' : ∀ j, j < k' → faults.putFail (i + 1 + j) = false := by
        intro j hj
        have : i + 1 + j = i + (j + 1) := by omega
        rw [this]
        exact hjk (j + 1) (by omega)
      obtain ⟨err, r', log', heq, hbr, hcount, hmono, htake⟩ :=
        ih k' (i + 1)
          { r with files := alistSet r.files (branchName, fullDestPath contentPath f.1) f.2 }
          (log ++ [PushEvent.apiCall (ApiCall.getContents owner repoName
                    (fullDestPath contentPath f.1) branchName),
                   PushEvent.apiCall (ApiCall.putContents owner repoName
                    (fullDestPath contentPath f.1) branchName f.2
                    ("Update " ++ f.1 ++ " via Obsidian Hugo Publisher"))])
          hk' hfk' hjk'
      refine ⟨err, r', log', ?_, hbr, ?_, ?_, ?_⟩
      · simp only [uploadLoop, hfi, Bool.false_eq_true, if_false]
        exact heq
      · rw [hcount, countPuts_append]
        simp [countPuts, List.countP_cons]
        omega
      · intro key hkey
        exact hmono key (fst_mem_alistSet_of_mem _ _ _ _ hkey)
      · intro f' hf'
        rcases List.mem_cons.mp (by simpa using hf') with h1 | h2
        · subst h1
          exact hmono _ (fst_mem_alistSet_self _ _ _)
        · exact htake f' h2

theorem validateSettings_repoInfo (st : PluginSettings)
    (h : (validateSettingsM st).1 = true) : ∃ orp, getRepoInfo st.repoUrl = some orp := by
  cases hgr : getRepoInfo st.repoUrl with
  | some orp => exact ⟨orp, rfl⟩
  | none =>
    exfalso
    unfold validateSettingsM at h
    rw [hgr] at h
    by_cases h1 : (decide (st.repoUrl = "") || decide (st.branchRoot = "")
        || decide (st.githubToken = "")) = true
    · rw [if_pos h1] at h
      cases h
    · rw [if_neg h1] at h
      simp at h

theorem pushToGithub_upload_fail (settings : PluginSettings) (iso : String)
    (faults : RemoteFaults) (repo : RemoteRepo) (files : List (String × String)) (k : Nat)
    (hv : (validateSettingsM settings).1 = true)
    (href : faults.refFail = false) (hbrf : faults.branchFail = false)
    (hk : k < files.length) (hfk : faults.putFail k = true)
    (hjk : ∀ j, j < k → faults.putFail j = false) :
    (pushToGithub settings iso faults repo files).ok = false ∧
    alistGet (pushToGithub settings iso faults repo files).repo.branches
      (generateUniqueBranchName settings iso) = some repo.headSha ∧
    countPuts (pushToGithub settings iso faults repo files).log = k + 1 ∧
    (∀ f ∈ files.take k,
      (generateUniqueBranchName settings iso, fullDestPath settings.contentPath f.1)
        ∈ (pushToGithub settings iso faults repo files).repo.files.map Prod.fst) := by
  obtain ⟨orp, horp⟩ := validateSettings_repoInfo settings hv
  obtain ⟨err, r', log', heq, hbr, hcount, hmono, htake⟩ :=
    uploadLoop_fail_char orp.1 orp.2 (generateUniqueBranchName settings iso)
      settings.contentPath faults files k 0
      { defaultBranch := repo.defaultBranch, headSha := repo.headSha
      , branches := alistSet repo.branches (generateUniqueBranchName settings iso) repo.headSha
      , files := repo.files }
      (List.map PushEvent.notice (validateSettingsM settings).2 ++
        [PushEvent.notice ("Starting publication of " ++ toString files.length ++ " files...")] ++
        [PushEvent.apiCall (ApiCall.getRepo orp.1 orp.2)] ++
        [PushEvent.apiCall (ApiCall.getRef orp.1 orp.2 repo.defaultBranch)] ++
        [PushEvent.notice ("Creating branch: " ++ generateUniqueBranchName settings iso
          ++ "...")] ++
        [PushEvent.apiCall (ApiCall.createRef orp.1 orp.2
          ("refs/heads/" ++ generateUniqueBranchName settings iso) repo.headSha)] ++
        [PushEvent.notice "Uploading files to GitHub..."])
      hk (by simpa using hfk) (by intro j hj; simpa using hjk j hj)
  simp only [pushToGithub, hv, horp, href, hbrf, Bool.not_true, Bool.false_eq_true, if_false]
  rw [heq]
  refine ⟨rfl, ?_, ?_, ?_⟩
  · rw [hbr]
    exact alistGet_set_self _ _ _
  · rw [countPuts_append, hcount]
    simp only [countPuts_append, countPuts_notices, countPuts, List.countP_cons,
      List.countP_nil]
    simp
  · exact htake

theorem publishNotes_tracker_of_push_fail (settings : PluginSettings) (iso iso₂ : String)
    (now : Nat) (faults : RemoteFaults) (conv : String → String → String → String)
    (vault : Vault) (s : TrackerState) (repo : RemoteRepo)
    (h : (pushToGithub settings iso faults repo
          (assembleFiles conv vault (getTrackedNotes true s)).1).ok = false) :
    (publishNotes settings iso iso₂ now faults conv vault s repo).tracker = s := by
  unfold publishNotes
  by_cases h0 : (getTrackedNotes true s).length = 0
  · rw [if_pos h0]
  · rw [if_neg h0]
    by_cases h1 : (assembleFiles conv vault (getTrackedNotes true s)).1.length = 0
    · rw [if_pos h1]
    · rw [if_neg h1]
      simp only [h, Bool.false_eq_true, if_false]

/-- Claim C4 (amended): when some file upload in a publish batch throws a
transport error, the remaining uploads are aborted (exactly the failing
upload and its predecessors are attempted), the created branch and the
already committed files are left in place (not rolled back), and
`pushToGithub` returns `false` after a failure notice to the caller — but
no `PublicationEvent` (failure or success) is recorded for any document
of the batch: `pushToGithub` catches the error internally, so the
orchestrator's failure-event path is unreachable and its tracker state
is returned unchanged. -/
theorem c4_failed_upload_no_events :
    (∀ (settings : PluginSettings) (iso : String) (faults : RemoteFaults)
       (repo : RemoteRepo) (files : List (String × String)) (k : Nat),
       (validateSettingsM settings).1 = true →
       faults.refFail = false → faults.branchFail = false →
       k < files.length → faults.putFail k = true →
       (∀ j, j < k → faults.putFail j = false) →
       (pushToGithub settings iso faults repo files).ok = false ∧
       alistGet (pushToGithub settings iso faults repo files).repo.branches
         (generateUniqueBranchName settings iso) = some repo.headSha ∧
       countPuts (pushToGithub settings iso faults repo files).log = k + 1 ∧
       (∀ f ∈ files.take k,
         (generateUniqueBranchName settings iso, fullDestPath settings.contentPath f.1)
           ∈ (pushToGithub settings iso faults repo files).repo.files.map Prod.fst)) ∧
    (∀ (settings : PluginSettings) (iso iso₂ : String) (now : Nat) (faults : RemoteFaults)
       (conv : String → String → String → String) (vault : Vault) (s : TrackerState)
       (repo : RemoteRepo),
       (pushToGithub settings iso faults repo
          (assembleFiles conv vault (getTrackedNotes true s)).1).ok = false →
       (publishNotes settings iso iso₂ now faults conv vault s repo).tracker = s) :=
  ⟨fun settings iso faults repo files k hv href hbrf hk hfk hjk =>
     pushToGithub_upload_fail settings iso faults repo files k hv href hbrf hk hfk hjk,
   fun settings iso iso₂ now faults conv vault s repo h =>
     publishNotes_tracker_of_push_fail settings iso iso₂ now faults conv vault s repo h⟩

theorem c4_failed_upload_no_events_witness :
    ((pushToGithub exSettings exIso failSecond exRepo exFiles3).ok = false ∧
      alistGet (pushToGithub exSettings exIso failSecond exRepo exFiles3).repo.branches
        (generateUniqueBranchName exSettings exIso) = some exRepo.headSha ∧
      countPuts (pushToGithub exSettings exIso failSecond exRepo exFiles3).log = 1 + 1 ∧
      (∀ f ∈ exFiles3.take 1,
        (generateUniqueBranchName exSettings exIso, fullDestPath exSettings.contentPath f.1)
          ∈ (pushToGithub exSettings exIso failSecond exRepo exFiles3).repo.files.map
              Prod.fst)) ∧
    (publishNotes exSettings exIso exIso 1000 failSecond exConv vault3 s3 exRepo).tracker
      = s3 :=
  ⟨c4_failed_upload_no_events.1 exSettings exIso failSecond exRepo exFiles3 1 (by decide)
      rfl rfl (by decide) rfl
      (fun j hj => by
        have hj0 : j = 0 := Nat.lt_one_iff.mp hj
        subst hj0
        rfl),
   c4_failed_upload_no_events.2 exSettings exIso exIso 1000 failSecond exConv vault3 s3
      exRepo (by decide)⟩

/-- Claim C4 counterexample: a batch of 3 modified documents whose 2nd
file upload fails with a transport error — `pushToGithub` reports
failure, yet no document of the batch receives any `PublicationEvent`
(all publication histories stay empty), contradicting "every document
that was part of the attempted batch receives a PublicationEvent with
status failure". -/
theorem c4_counterexample :
    (getTrackedNotes true s3).length = 3 ∧
    (pushToGithub exSettings exIso failSecond exRepo exFiles3).ok = false ∧
    getPublicationHistory "a.md" exC4Out.tracker = [] ∧
    getPublicationHistory "b.md" exC4Out.tracker = [] ∧
    getPublicationHistory "c.md" exC4Out.tracker = [] := by
  decide

/-! ### Claim C5 -/

theorem validateSettingsM_of_valid (st : PluginSettings)
    (h : (validateSettingsM st).1 = true) : validateSettingsM st = (true, []) := by
  unfold validateSettingsM at h ⊢
  by_cases h1 : (decide (st.repoUrl = "") || decide (st.branchRoot = "")
      || decide (st.githubToken = "")) = true
  · rw [if_pos h1] at h
    cases h
  · rw [if_neg h1] at h ⊢
    by_cases h2 : (getRepoInfo st.repoUrl).isNone = true
    · rw [if_pos h2] at h
      cases h
    · rw [if_neg h2]

theorem uploadLoop_log_extends (owner repoName branchName contentPath : String)
    (faults : RemoteFaults) :
    ∀ (files : List (String × String)) (i : Nat) (r : RemoteRepo) (log : List PushEvent),
      ∃ ext, (uploadLoop owner repoName branchName contentPath faults files i r log).2.2
        = log ++ ext := by
  intro files
  induction files with
  | nil =>
    intro i r log
    exact ⟨[], by simp [uploadLoop]⟩
  | cons f rest ih =>
    intro i r log
    by_cases hf : faults.putFail i = true
    · refine ⟨[PushEvent.apiCall (ApiCall.getContents owner repoName
          (fullDestPath contentPath f.1) branchName),
        PushEvent.apiCall (ApiCall.putContents owner repoName
          (fullDestPath contentPath f.1) branchName f.2
          ("Update " ++ f.1 ++ " via Obsidian Hugo Publisher"))], ?_⟩
      simp [uploadLoop, hf]
    · have hf' : faults.putFail i = false := by
        cases hb : faults.putFail i
        · rfl
        · exact absurd hb hf
      obtain ⟨ext, hext⟩ := ih (i + 1)
        { r with files := alistSet r.files (branchName, fullDestPath contentPath f.1) f.2 }
        (log ++ [PushEvent.apiCall (ApiCall.getContents owner repoName
            (fullDestPath contentPath f.1) branchName),
          PushEvent.apiCall (ApiCall.putContents owner repoName
            (fullDestPath contentPath f.1) branchName f.2
            ("Update " ++ f.1 ++ " via Obsidian Hugo Publisher"))])
      refine ⟨[PushEvent.apiCall (ApiCall.getContents owner repoName
          (fullDestPath contentPath f.1) branchName),
        PushEvent.apiCall (ApiCall.putContents owner repoName
          (fullDestPath contentPath f.1) branchName f.2
          ("Update " ++ f.1 ++ " via Obsidian Hugo Publisher"))] ++ ext, ?_⟩
      simp only [uploadLoop, hf', Bool.false_eq_true, if_false]
      rw [hext]
      simp [List.append_assoc]

theorem noticesBeforeFirstCall_start (m : String) (c : ApiCall) (rest : List PushEvent) :
    noticesBeforeFirstCall (PushEvent.notice m :: PushEvent.apiCall c :: rest) = [m] := by
  simp [noticesBeforeFirstCall, List.takeWhile]

theorem pushToGithub_preflight_notices (settings : PluginSettings) (iso : String)
    (faults : RemoteFaults) (repo : RemoteRepo) (files : List (String × String))
    (hv : (validateSettingsM settings).1 = true) :
    noticesBeforeFirstCall (pushToGithub settings iso faults repo files).log =
      ["Starting publication of " ++ toString files.length ++ " files..."] := by
  have hvm := validateSettingsM_of_valid settings hv
  obtain ⟨orp, horp⟩ := validateSettings_repoInfo settings hv
  simp only [pushToGithub, hvm, horp, Bool.not_true, Bool.false_eq_true, if_false,
    List.map_nil, List.nil_append]
  by_cases href : faults.refFail = true
  · rw [if_pos href]
    simp only [List.cons_append, List.nil_append, List.singleton_append]
    exact noticesBeforeFirstCall_start _ _ _
  · rw [if_neg href]
    by_cases hbrf : faults.branchFail = true
    · rw [if_pos hbrf]
      simp only [List.append_assoc, List.cons_append, List.nil_append,
        List.singleton_append]
      exact noticesBeforeFirstCall_start _ _ _
    · rw [if_neg hbrf]
      obtain ⟨ext, hext⟩ := uploadLoop_log_extends orp.1 orp.2
        (generateUniqueBranchName settings iso) settings.contentPath faults files 0
        { defaultBranch := repo.defaultBranch, headSha := repo.headSha
        , branches := alistSet repo.branches (generateUniqueBranchName settings iso)
            repo.headSha
        , files := repo.files }
        ([PushEvent.notice ("Starting publication of " ++ toString files.length
            ++ " files...")] ++
          [PushEvent.apiCall (ApiCall.getRepo orp.1 orp.2)] ++
          [PushEvent.apiCall (ApiCall.getRef orp.1 orp.2 repo.defaultBranch)] ++
          [PushEvent.notice ("Creating branch: " ++ generateUniqueBranchName settings iso
            ++ "...")] ++
          [PushEvent.apiCall (ApiCall.createRef orp.1 orp.2
            ("refs/heads/" ++ generateUniqueBranchName settings iso) repo.headSha)] ++
          [PushEvent.notice "Uploading files to GitHub..."])
      cases huv : uploadLoop orp.1 orp.2 (generateUniqueBranchName settings iso)
        settings.contentPath faults files 0
        { defaultBranch := repo.defaultBranch, headSha := repo.headSha
        , branches := alistSet repo.branches (generateUniqueBranchName settings iso)
            repo.headSha
        , files := repo.files }
        ([PushEvent.notice ("Starting publication of " ++ toString files.length
            ++ " files...")] ++
          [PushEvent.apiCall (ApiCall.getRepo orp.1 orp.2)] ++
          [PushEvent.apiCall (ApiCall.getRef orp.1 orp.2 repo.defaultBranch)] ++
          [PushEvent.notice ("Creating branch: " ++ generateUniqueBranchName settings iso
            ++ "...")] ++
          [PushEvent.apiCall (ApiCall.createRef orp.1 orp.2
            ("refs/heads/" ++ generateUniqueBranchName settings iso) repo.headSha)] ++
          [PushEvent.notice "Uploading files to GitHub..."]) with
      | mk res rl =>
        rw [huv] at hext
        obtain ⟨r2, log₂⟩ := rl
        cases res with
        | some errMsg =>
          simp only at hext
          simp only [hext, List.append_assoc, List.cons_append, List.nil_append,
            List.singleton_append]
          exact noticesBeforeFirstCall_start _ _ _
        | none =>
          simp only at hext
          simp only [hext, List.append_assoc, List.cons_append, List.nil_append,
            List.singleton_append]
          exact noticesBeforeFirstCall_start _ _ _

theorem pushToGithub_collision_overwrites (settings : PluginSettings) (iso : String)
    (faults : RemoteFaults) (repo : RemoteRepo) (p c₁ c₂ : String)
    (hv : (validateSettingsM settings).1 = true)
    (href : faults.refFail = false) (hbrf : faults.branchFail = false)
    (h0 : faults.putFail 0 = false) (h1 : faults.putFail 1 = false) :
    (pushToGithub settings iso faults repo [(p, c₁), (p, c₂)]).ok = true ∧
    alistGet (pushToGithub settings iso faults repo [(p, c₁), (p, c₂)]).repo.files
      (generateUniqueBranchName settings iso, fullDestPath settings.contentPath p)
        = some c₂ := by
  obtain ⟨orp, horp⟩ := validateSettings_repoInfo settings hv
  simp only [pushToGithub, hv, horp, href, hbrf, Bool.not_true, Bool.false_eq_true,
    if_false]
  simp only [uploadLoop, h0, h1, Bool.false_eq_true, if_false]
  constructor
  · trivial
  · exact alistGet_set_self _ _ _

/-- Claim C5 (amended): no pre-flight collision detection exists.  Before
the first network request the user sees exactly the one "Starting
publication of N files..." notice, whatever the destination filenames
are — colliding or not — and when two distinct documents reduce to the
same destination path both are uploaded in order, the push succeeds,
and the second silently overwrites the first on the remote branch. -/
theorem c5_no_preflight_collision_warning :
    (∀ (settings : PluginSettings) (iso : String) (faults : RemoteFaults)
       (repo : RemoteRepo) (files : List (String × String)),
       (validateSettingsM settings).1 = true →
       noticesBeforeFirstCall (pushToGithub settings iso faults repo files).log =
         ["Starting publication of " ++ toString files.length ++ " files..."]) ∧
    (∀ (settings : PluginSettings) (iso : String) (faults : RemoteFaults)
       (repo : RemoteRepo) (p c₁ c₂ : String),
       (validateSettingsM settings).1 = true →
       faults.refFail = false → faults.branchFail = false →
       faults.putFail 0 = false → faults.putFail 1 = false →
       (pushToGithub settings iso faults repo [(p, c₁), (p, c₂)]).ok = true ∧
       alistGet (pushToGithub settings iso faults repo [(p, c₁), (p, c₂)]).repo.files
         (generateUniqueBranchName settings iso, fullDestPath settings.contentPath p)
           = some c₂) :=
  ⟨fun settings iso faults repo files hv =>
     pushToGithub_preflight_notices settings iso faults repo files hv,
   fun settings iso faults repo p c₁ c₂ hv href hbrf h0 h1 =>
     pushToGithub_collision_overwrites settings iso faults repo p c₁ c₂ hv href hbrf h0 h1⟩

theorem c5_no_preflight_collision_warning_witness :
    (noticesBeforeFirstCall (pushToGithub exSettings exIso noFaults exRepo
        [("post.md", "A"), ("post.md", "B")]).log =
      ["Starting publication of " ++
        toString ([("post.md", "A"), ("post.md", "B")] : List (String × String)).length ++
        " files..."]) ∧
    ((pushToGithub exSettings exIso noFaults exRepo
        [("post.md", "A"), ("post.md", "B")]).ok = true ∧
      alistGet (pushToGithub exSettings exIso noFaults exRepo
          [("post.md", "A"), ("post.md", "B")]).repo.files
        (generateUniqueBranchName exSettings exIso,
         fullDestPath exSettings.contentPath "post.md") = some "B") :=
  ⟨c5_no_preflight_collision_warning.1 exSettings exIso noFaults exRepo
      [("post.md", "A"), ("post.md", "B")] (by decide),
   c5_no_preflight_collision_warning.2 exSettings exIso noFaults exRepo
      "post.md" "A" "B" (by decide) rfl rfl rfl rfl⟩

/-- Claim C5 counterexample: two distinct source documents (`Post.md` and
`post.md`) both convert to the destination filename `post.md`, yet the
notices emitted before the first network call are exactly the same as
for a collision-free batch of the same size — no pre-flight collision
warning of any kind is produced. -/
theorem c5_counterexample :
    ((assembleFiles exConv vaultColl (getTrackedNotes false sColl)).1.map Prod.fst
        = ["post.md", "post.md"]) ∧
    noticesBeforeFirstCall (publishAllNotes exSettings exIso exIso 1000 noFaults exConv
        vaultColl sColl exRepo).log =
      noticesBeforeFirstCall (publishAllNotes exSettings exIso exIso 1000 noFaults exConv
        vaultPlain sPlain exRepo).log ∧
    noticesBeforeFirstCall (publishAllNotes exSettings exIso exIso 1000 noFaults exConv
        vaultColl sColl exRepo).log = ["Starting publication of 2 files..."] := by
  decide
